import Mathlib

/-!
Shallow embedding of the `deno-context` cancellation/deadline propagation
engine (src/Context.ts, src/CancelableContext.ts, src/DeadlineContext.ts).

Contexts live in a heap (a list indexed by allocation order).  Cancellation
callbacks are opaque: they are identified by numeric ids and their invocation
is recorded as an event in a trace.  The abort controller is modelled by an
`aborted` flag plus the abort reason; aborting an already-aborted controller
is a no-op, as in the DOM.  The one-shot `done` promise of a deadline context
is modelled by `doneResolved : Option String` (the first resolution sticks)
together with `doneResolveDefined`, which records whether the instance field
`doneResolve` has been wired yet — calling it before that point is a
`TypeError` in JavaScript, modelled by a `threw` flag on the result.
-/

/-- The three classes: `Context`, `CancelableContext`, `DeadlineContext`. -/
inductive CtxKind where
  | base
  | cancelable
  | deadline
deriving DecidableEq, Repr

/-- The `timeoutId` field of a `DeadlineContext`.  `undef` is the JavaScript
`undefined` of a not-yet-assigned field, `cleared` is the explicit `null`
written by `clearTimeout`, and `armed pending` is a real timer id whose timer
is still pending (`true`) or has already fired (`false`). -/
inductive TimerSlot where
  | undef
  | cleared
  | armed (pending : Bool)
deriving DecidableEq, Repr

/-- One context object.  Fields follow the source classes; fields of a
subclass are inert (at their initial values) for objects of a superclass. -/
structure Ctx where
  kind : CtxKind
  parent : Option Nat
  /-- `false` once the constructor of this object threw, so no caller ever
  holds a reference to it. -/
  alive : Bool
  canceled : Bool
  cause : Option String
  cancelCallback : List Nat
  aborted : Bool
  abortReason : Option String
  /-- Whether a `children` property exists on the object at all (base
  `Context` objects get one only when a `DeadlineContext` child registers
  itself via `Object.defineProperty`). -/
  childrenDefined : Bool
  /-- Whether the `children` property is writable; `defineProperty` with a
  bare `{value}` descriptor on a fresh property makes it non-writable. -/
  childrenWritable : Bool
  children : Option Nat
  timeoutId : TimerSlot
  doneResolveDefined : Bool
  doneResolved : Option String
deriving DecidableEq, Repr

/-- The heap of allocated contexts plus the pending asynchronous
parent-deadline propagation tasks `(child, parent)` spawned by
`DeadlineContext`'s constructor. -/
structure Heap where
  ctxs : List Ctx
  tasks : List (Nat × Nat)
deriving DecidableEq, Repr

def Heap.empty : Heap := ⟨[], []⟩

def Heap.get (h : Heap) (i : Nat) : Option Ctx := h.ctxs[i]?

def Heap.set (h : Heap) (i : Nat) (c : Ctx) : Heap := ⟨h.ctxs.set i c, h.tasks⟩

/-- Observable events of one synchronous run: invocation of a registered
cancellation callback, and the abort signal actually firing. -/
inductive Event where
  | callback (ctx : Nat) (cb : Nat) (cause : String)
  | abort (ctx : Nat) (cause : String)
deriving DecidableEq, Repr

/-- `parent instanceof CancelableContext` (`DeadlineContext extends
`CancelableContext`, so both kinds pass). -/
def isCancelableKind (k : CtxKind) : Bool :=
  match k with
  | CtxKind.base => false
  | CtxKind.cancelable => true
  | CtxKind.deadline => true

/-- Models the TypeScript non-null assertion on `this.cause!` /
`parent.getCause()!`.  Every call site has just observed `isCancelled()` (or
a resolved `done` promise), and the cause/canceled invariant proved below
shows `cause` is non-null there, so the fallback string is never reached. -/
def causeBang (c : Ctx) : String := c.cause.getD "context canceled"

/-- `AbortController.abort(reason)`: a no-op on an already-aborted signal,
otherwise it transitions the signal and (observably) fires it. -/
def abortCtrl (c : Ctx) (i : Nat) (v : String) : Ctx × List Event :=
  if c.aborted then (c, [])
  else ({ c with aborted := true, abortReason := some v }, [Event.abort i v])

/-- `DeadlineContext.clearTimeout`: `if (this.timeoutId !== null) { clearTimeout(id); this.timeoutId = null; }`.
Clearing an `undefined` or already-fired id is harmless; a pending timer is
descheduled. -/
def clearTimeoutCtx (c : Ctx) : Ctx :=
  if c.timeoutId = TimerSlot.cleared then c
  else { c with timeoutId := TimerSlot.cleared }

/-- Resolving the one-shot `done` promise: the first value sticks. -/
def resolveDone (c : Ctx) (v : String) : Ctx :=
  match c.doneResolved with
  | some _ => c
  | none => { c with doneResolved := some v }

/-- The body of `CancelableContext.cancel`, parameterized by the recursive
call used for the cascade into `this.children` (kind dispatch happens in
`cancelFuel`).  Returns the new heap, the event trace, and whether the run
threw. -/
def cancelBody (rec : Heap → Nat → String → Heap × List Event × Bool)
    (h : Heap) (i : Nat) (c : Ctx) (cause : String) : Heap × List Event × Bool :=
  if c.canceled then (h, [], false)
  else
    let c1 := { c with canceled := true, cause := some cause }
    let evsCb := c1.cancelCallback.map fun cb => Event.callback i cb cause
    let p := abortCtrl c1 i cause
    let h1 := h.set i p.1
    match p.1.children with
    | none => (h1, evsCb ++ p.2, false)
    | some j =>
      let r := rec h1 j cause
      (r.1, evsCb ++ p.2 ++ r.2.1, r.2.2)

/-- `cancel(cause)`, with dynamic dispatch on the receiver's class and fuel
for the cascade recursion (children ids are strictly larger than their
parents', so `h.ctxs.length` fuel always suffices).  The `deadline` branch is
the override: `this.clearTimeout(); super.cancel(cause); this.doneResolve(cause)`;
calling `doneResolve` before the constructor wired it is a `TypeError`,
reported in the `Bool` component. -/
def cancelFuel : Nat → Heap → Nat → String → Heap × List Event × Bool
  | 0, h, _, _ => (h, [], false)
  | fuel+1, h, i, cause =>
    match h.get i with
    | none => (h, [], false)
    | some c =>
      match c.kind with
      | CtxKind.base => (h, [], false)
      | CtxKind.cancelable => cancelBody (cancelFuel fuel) h i c cause
      | CtxKind.deadline =>
        let c1 := clearTimeoutCtx c
        let h1 := h.set i c1
        let r := cancelBody (cancelFuel fuel) h1 i c1 cause
        if r.2.2 then r
        else if c1.doneResolveDefined then
          match r.1.get i with
          | some c2 => (r.1.set i (resolveDone c2 cause), r.2.1, false)
          | none => r
        else (r.1, r.2.1, true)

/-- Public `cancel` entry point with full fuel. -/
def cancel (h : Heap) (i : Nat) (cause : String) : Heap × List Event × Bool :=
  cancelFuel h.ctxs.length h i cause

/-- `cancel()` with the defaulted cause. -/
def cancelNoArg (h : Heap) (i : Nat) : Heap × List Event × Bool :=
  cancel h i "context canceled"

/-- `Object.defineProperty(parent, "children", { value: v })`.  On a
`CancelableContext` the property was pre-defined writable, so the value is
replaced; on a bare `Context` a fresh non-writable property is created, and
redefining a non-writable, non-configurable property to a different value
throws (`none`). -/
def defineChildrenProp (c : Ctx) (v : Nat) : Option Ctx :=
  if !c.childrenDefined then
    some { c with childrenDefined := true, childrenWritable := false, children := some v }
  else if c.childrenWritable then
    some { c with children := some v }
  else if c.children = some v then some c
  else none

/-- A constructor that threw leaves its allocated object unreachable. -/
def markDead (h : Heap) (i : Nat) : Heap :=
  match h.get i with
  | some c => h.set i { c with alive := false }
  | none => h

/-- State of a `CancelableContext` right after its `defineProperty` field
initializations (canceled `false`, cause `null`, empty callback list, fresh
controller, `children` defined writable and `null`). -/
def cancelableInit (parent : Nat) : Ctx :=
  { kind := CtxKind.cancelable, parent := some parent, alive := true,
    canceled := false, cause := none, cancelCallback := [],
    aborted := false, abortReason := none,
    childrenDefined := true, childrenWritable := true, children := none,
    timeoutId := TimerSlot.undef, doneResolveDefined := false, doneResolved := none }

/-- Same fields for an object being built by `new DeadlineContext(...)` when
the `CancelableContext` super-constructor runs: the subclass fields are still
at their pre-initialization `undefined` values. -/
def deadlineInit (parent : Nat) : Ctx :=
  { cancelableInit parent with kind := CtxKind.deadline }

/-- The parent-linkage tail of the `CancelableContext` constructor, run after
the field initializations on the freshly allocated object `i`: if the parent
is a `CancelableContext` and already canceled, `this.cancel(parent.getCause()!)`
and return (no registration); otherwise register `i` as the parent's
propagation child.  `this.cancel` dispatches on the object's actual class, so
a `DeadlineContext` under construction runs its override here. -/
def ctorCancelableBody (h0 : Heap) (i p : Nat) : Heap × List Event × Bool :=
  match h0.get p with
  | none => (h0, [], false)
  | some pc =>
    if isCancelableKind pc.kind then
      if pc.canceled then cancelFuel h0.ctxs.length h0 i (causeBang pc)
      else
        match defineChildrenProp pc i with
        | some pc1 => (h0.set p pc1, [], false)
        | none => (h0, [], true)
    else (h0, [], false)

/-- `new CancelableContext(parent)`.  Returns the heap, the events of any
construction-time cancellation, and the new id — or `none` if the
constructor threw. -/
def newCancelable (h : Heap) (p : Nat) : Heap × List Event × Option Nat :=
  let i := h.ctxs.length
  let h0 : Heap := ⟨h.ctxs ++ [cancelableInit p], h.tasks⟩
  let r := ctorCancelableBody h0 i p
  if r.2.2 then (markDead r.1 i, r.2.1, none) else (r.1, r.2.1, some i)

/-- `initializeTimer(timeoutMs)`: `if (this.timeoutId == null)` (loose, so
both `undefined` and `null` pass) arm the timer. -/
def armTimer (h : Heap) (i : Nat) : Heap :=
  match h.get i with
  | some c =>
    if c.timeoutId = TimerSlot.undef ∨ c.timeoutId = TimerSlot.cleared then
      h.set i { c with timeoutId := TimerSlot.armed true }
    else h
  | none => h

/-- Wiring of the `_done` promise: the executor runs synchronously and
defines `doneResolve`. -/
def wireDone (h : Heap) (i : Nat) : Heap :=
  match h.get i with
  | some c => h.set i { c with doneResolveDefined := true }
  | none => h

/-- Final statement of the `DeadlineContext` constructor:
`Object.defineProperty(parent, "children", { value: this })`, reached for
every parent kind.  A throw (non-writable `children` on a bare `Context`)
aborts the construction. -/
def registerChild (h : Heap) (i p : Nat) (evs : List Event) :
    Heap × List Event × Option Nat :=
  match h.get p with
  | some pc =>
    match defineChildrenProp pc i with
    | some pc1 => (h.set p pc1, evs, some i)
    | none => (markDead h i, evs, none)
  | none => (h, evs, some i)

/-- `new DeadlineContext(parent, timeoutMs)`: `super(parent)` (which may run
`this.cancel` — and then throw, since `doneResolve` is not wired yet); then
`initializeTimer`; then the `_done` promise wiring; then the
already-canceled-parent check, the parent-deadline propagation task, and the
unconditional child registration.  The timer duration itself is abstracted
away (timers are fired by an explicit `fireTimer` step). -/
def newDeadline (h : Heap) (p : Nat) (_timeoutMs : Nat) : Heap × List Event × Option Nat :=
  let i := h.ctxs.length
  let h0 : Heap := ⟨h.ctxs ++ [deadlineInit p], h.tasks⟩
  let r1 := ctorCancelableBody h0 i p
  if r1.2.2 then (markDead r1.1 i, r1.2.1, none)
  else
    let h2 := armTimer r1.1 i
    let h3 := wireDone h2 i
    match h3.get p with
    | some pc =>
      if isCancelableKind pc.kind then
        if pc.canceled then
          let r4 := cancelFuel h3.ctxs.length h3 i (causeBang pc)
          if r4.2.2 then (markDead r4.1 i, r1.2.1 ++ r4.2.1, none)
          else (r4.1, r1.2.1 ++ r4.2.1, some i)
        else
          let h4 : Heap :=
            if pc.kind = CtxKind.deadline then ⟨h3.ctxs, h3.tasks ++ [(i, p)]⟩ else h3
          registerChild h4 i p r1.2.1
      else registerChild h3 i p r1.2.1
    | none => (h3, r1.2.1, some i)

/-- A bare `Context` object: only the `parent` field is defined; in
particular no `children` property exists on it. -/
def baseInit (p : Option Nat) : Ctx :=
  { kind := CtxKind.base, parent := p, alive := true,
    canceled := false, cause := none, cancelCallback := [],
    aborted := false, abortReason := none,
    childrenDefined := false, childrenWritable := false, children := none,
    timeoutId := TimerSlot.undef, doneResolveDefined := false, doneResolved := none }

/-- `Context`'s own constructor / the `background()` and `todo()` roots. -/
def newContext (h : Heap) (p : Option Nat) : Heap × Nat :=
  (⟨h.ctxs ++ [baseInit p], h.tasks⟩, h.ctxs.length)

def background (h : Heap) : Heap × Nat := newContext h none

def todo (h : Heap) : Heap × Nat := newContext h none

/-- `onCancel(callback)`: immediate synchronous delivery with the existing
cause when already canceled, otherwise append to the listener list.  The
method exists only on `CancelableContext` and its subclass. -/
def onCancel (h : Heap) (i : Nat) (cb : Nat) : Heap × List Event :=
  match h.get i with
  | none => (h, [])
  | some c =>
    if isCancelableKind c.kind then
      if c.canceled then (h, [Event.callback i cb (causeBang c)])
      else (h.set i { c with cancelCallback := c.cancelCallback ++ [cb] }, [])
    else (h, [])

def isCancelled (h : Heap) (i : Nat) : Bool :=
  match h.get i with
  | some c => c.canceled
  | none => false

def getCause (h : Heap) (i : Nat) : Option String :=
  match h.get i with
  | some c => c.cause
  | none => none

/-- The value the `done` promise has resolved with, if it has. -/
def doneValue (h : Heap) (i : Nat) : Option String :=
  match h.get i with
  | some c => c.doneResolved
  | none => none

def deadlineExceeded : String := "context deadline exceeded"

/-- The pending timer of deadline context `i` fires: `finish()` runs —
`setCause("context deadline exceeded")`, `controller.abort(this.getCause()!)`,
`this.doneResolve(this.getCause()!)`.  `none` when no pending timer exists on
`i`.  Note `finish` does not touch `canceled`, the listeners, or `children`. -/
def fireTimer (h : Heap) (i : Nat) : Option (Heap × List Event × Bool) :=
  match h.get i with
  | none => none
  | some c =>
    if c.kind = CtxKind.deadline ∧ c.timeoutId = TimerSlot.armed true then
      let c0 := { c with timeoutId := TimerSlot.armed false }
      let c1 := { c0 with cause := some deadlineExceeded }
      let p := abortCtrl c1 i (causeBang c1)
      if c1.doneResolveDefined then
        some (h.set i (resolveDone p.1 (causeBang p.1)), p.2, false)
      else some (h.set i p.1, p.2, true)
    else none

/-- One pending parent-deadline propagation task resumes:
`await parent.done; this.cancel(parent.getCause()!)`.  Enabled only once the
parent's `done` promise has resolved. -/
def runTask (h : Heap) (t : Nat) : Option (Heap × List Event × Bool) :=
  match h.tasks[t]? with
  | some (child, par) =>
    match h.get par with
    | some pc =>
      if pc.doneResolved.isSome then
        let h1 : Heap := ⟨h.ctxs, h.tasks.eraseIdx t⟩
        some (cancel h1 child (causeBang pc))
      else none
    | none => none
  | none => none

/-! ### Heap access lemmas -/

theorem Heap.get_lt {h : Heap} {i : Nat} {c : Ctx} (hi : h.get i = some c) :
    i < h.ctxs.length :=
  (List.getElem?_eq_some.mp hi).1

theorem Heap.get_set_self {h : Heap} {i : Nat} {c0 : Ctx} (hi : h.get i = some c0)
    (c : Ctx) : (h.set i c).get i = some c :=
  List.getElem?_set_self (Heap.get_lt hi)

theorem Heap.get_set_ne {h : Heap} {i j : Nat} (c : Ctx) (hij : i ≠ j) :
    (h.set i c).get j = h.get j :=
  List.getElem?_set_ne hij

theorem listSetSelf {α : Type} {l : List α} {i : Nat} {c : α} (h : l[i]? = some c) :
    l.set i c = l := by
  apply List.ext_getElem?
  intro j
  by_cases hj : i = j
  · subst hj
    rw [List.getElem?_set_self (List.getElem?_eq_some.mp h).1, h]
  · rw [List.getElem?_set_ne hj]

theorem Heap.set_self {h : Heap} {i : Nat} {c : Ctx} (hi : h.get i = some c) :
    h.set i c = h := by
  cases h with
  | mk l t => exact congrArg (fun x => Heap.mk x t) (listSetSelf hi)

theorem Heap.get_of_ctxs_eq {h h' : Heap} (he : h'.ctxs = h.ctxs) (j : Nat) :
    h'.get j = h.get j := by
  unfold Heap.get
  rw [he]

/-! ### Preservation of already-canceled contexts through a cancel cascade -/

/-- The fields of every already-canceled context survive `h ⟶ h'` untouched
(apart from the deadline override's timer slot and `done` resolution, which
are not listed). -/
def CorePreserved (h h' : Heap) : Prop :=
  ∀ j cj, h.get j = some cj → cj.canceled = true →
    ∃ cj', h'.get j = some cj' ∧ cj'.canceled = true ∧ cj'.cause = cj.cause ∧
      cj'.kind = cj.kind ∧ cj'.aborted = cj.aborted ∧
      cj'.abortReason = cj.abortReason ∧
      cj'.cancelCallback = cj.cancelCallback ∧ cj'.children = cj.children

theorem CorePreserved.refl (h : Heap) : CorePreserved h h :=
  fun _ cj hj hc => ⟨cj, hj, hc, rfl, rfl, rfl, rfl, rfl, rfl⟩

theorem CorePreserved.trans {h1 h2 h3 : Heap}
    (a : CorePreserved h1 h2) (b : CorePreserved h2 h3) : CorePreserved h1 h3 := by
  intro j cj hj hc
  obtain ⟨c2, hg2, hc2, e1, e2, e3, e4, e5, e6⟩ := a j cj hj hc
  obtain ⟨c3, hg3, hc3, f1, f2, f3, f4, f5, f6⟩ := b j c2 hg2 hc2
  exact ⟨c3, hg3, hc3, f1.trans e1, f2.trans e2, f3.trans e3, f4.trans e4,
    f5.trans e5, f6.trans e6⟩

/-- Setting a not-yet-canceled slot preserves all canceled contexts. -/
theorem CorePreserved.set_uncanceled {h : Heap} {i : Nat} {c : Ctx}
    (hi : h.get i = some c) (hnc : c.canceled = false) (c' : Ctx) :
    CorePreserved h (h.set i c') := by
  intro j cj hj hc
  by_cases hij : i = j
  · subst hij
    rw [hi] at hj
    cases hj
    rw [hc] at hnc
    cases hnc
  · exact ⟨cj, (Heap.get_set_ne c' hij).trans hj, hc, rfl, rfl, rfl, rfl, rfl, rfl⟩

/-- Overwriting a slot with a record that only changes `timeoutId` or
`doneResolved` relative to its old value preserves all canceled contexts. -/
theorem CorePreserved.set_inert {h : Heap} {i : Nat} {c c' : Ctx}
    (hi : h.get i = some c)
    (e1 : c'.canceled = c.canceled) (e2 : c'.cause = c.cause)
    (e3 : c'.kind = c.kind) (e4 : c'.aborted = c.aborted)
    (e5 : c'.abortReason = c.abortReason)
    (e6 : c'.cancelCallback = c.cancelCallback) (e7 : c'.children = c.children) :
    CorePreserved h (h.set i c') := by
  intro j cj hj hc
  by_cases hij : i = j
  · subst hij
    rw [hi] at hj
    cases hj
    exact ⟨c', Heap.get_set_self hi c', e1.trans hc, e2, e3, e4, e5, e6, e7⟩
  · exact ⟨cj, (Heap.get_set_ne c' hij).trans hj, hc, rfl, rfl, rfl, rfl, rfl, rfl⟩

theorem clearTimeoutCtx_canceled (c : Ctx) : (clearTimeoutCtx c).canceled = c.canceled := by
  unfold clearTimeoutCtx
  split <;> rfl

theorem clearTimeoutCtx_cause (c : Ctx) : (clearTimeoutCtx c).cause = c.cause := by
  unfold clearTimeoutCtx
  split <;> rfl

theorem clearTimeoutCtx_kind (c : Ctx) : (clearTimeoutCtx c).kind = c.kind := by
  unfold clearTimeoutCtx
  split <;> rfl

theorem clearTimeoutCtx_aborted (c : Ctx) : (clearTimeoutCtx c).aborted = c.aborted := by
  unfold clearTimeoutCtx
  split <;> rfl

theorem clearTimeoutCtx_abortReason (c : Ctx) :
    (clearTimeoutCtx c).abortReason = c.abortReason := by
  unfold clearTimeoutCtx
  split <;> rfl

theorem clearTimeoutCtx_cancelCallback (c : Ctx) :
    (clearTimeoutCtx c).cancelCallback = c.cancelCallback := by
  unfold clearTimeoutCtx
  split <;> rfl

theorem clearTimeoutCtx_children (c : Ctx) :
    (clearTimeoutCtx c).children = c.children := by
  unfold clearTimeoutCtx
  split <;> rfl

theorem clearTimeoutCtx_doneResolveDefined (c : Ctx) :
    (clearTimeoutCtx c).doneResolveDefined = c.doneResolveDefined := by
  unfold clearTimeoutCtx
  split <;> rfl

theorem resolveDone_canceled (c : Ctx) (v : String) :
    (resolveDone c v).canceled = c.canceled := by
  unfold resolveDone
  split <;> rfl

theorem resolveDone_cause (c : Ctx) (v : String) :
    (resolveDone c v).cause = c.cause := by
  unfold resolveDone
  split <;> rfl

theorem resolveDone_kind (c : Ctx) (v : String) :
    (resolveDone c v).kind = c.kind := by
  unfold resolveDone
  split <;> rfl

theorem resolveDone_aborted (c : Ctx) (v : String) :
    (resolveDone c v).aborted = c.aborted := by
  unfold resolveDone
  split <;> rfl

theorem resolveDone_abortReason (c : Ctx) (v : String) :
    (resolveDone c v).abortReason = c.abortReason := by
  unfold resolveDone
  split <;> rfl

theorem resolveDone_cancelCallback (c : Ctx) (v : String) :
    (resolveDone c v).cancelCallback = c.cancelCallback := by
  unfold resolveDone
  split <;> rfl

theorem resolveDone_children (c : Ctx) (v : String) :
    (resolveDone c v).children = c.children := by
  unfold resolveDone
  split <;> rfl

theorem abortCtrl_fst_canceled (c : Ctx) (i : Nat) (v : String) :
    (abortCtrl c i v).1.canceled = c.canceled := by
  unfold abortCtrl
  split <;> rfl

theorem abortCtrl_fst_cause (c : Ctx) (i : Nat) (v : String) :
    (abortCtrl c i v).1.cause = c.cause := by
  unfold abortCtrl
  split <;> rfl

theorem abortCtrl_fst_children (c : Ctx) (i : Nat) (v : String) :
    (abortCtrl c i v).1.children = c.children := by
  unfold abortCtrl
  split <;> rfl

theorem abortCtrl_snd (c : Ctx) (i : Nat) (v : String) :
    (abortCtrl c i v).2 = [] ∨ (abortCtrl c i v).2 = [Event.abort i v] := by
  unfold abortCtrl
  split
  · exact Or.inl rfl
  · exact Or.inr rfl

/-! ### Unfolding equations for `cancelFuel` and `cancelBody` -/

theorem cancelFuel_none (f : Nat) (h : Heap) (i : Nat) (v : String)
    (hget : h.get i = none) : cancelFuel (f+1) h i v = (h, [], false) := by
  rw [cancelFuel, hget]

theorem cancelFuel_base (f : Nat) (h : Heap) (i : Nat) (v : String) {c : Ctx}
    (hget : h.get i = some c) (hk : c.kind = CtxKind.base) :
    cancelFuel (f+1) h i v = (h, [], false) := by
  obtain ⟨k, p1, p2, p3, p4, p5, p6, p7, p8, p9, p10, p11, p12, p13⟩ := c
  cases hk
  rw [cancelFuel, hget]

theorem cancelFuel_cancelable (f : Nat) (h : Heap) (i : Nat) (v : String) {c : Ctx}
    (hget : h.get i = some c) (hk : c.kind = CtxKind.cancelable) :
    cancelFuel (f+1) h i v = cancelBody (cancelFuel f) h i c v := by
  obtain ⟨k, p1, p2, p3, p4, p5, p6, p7, p8, p9, p10, p11, p12, p13⟩ := c
  cases hk
  rw [cancelFuel, hget]

theorem cancelFuel_deadline (f : Nat) (h : Heap) (i : Nat) (v : String) {c : Ctx}
    (hget : h.get i = some c) (hk : c.kind = CtxKind.deadline) :
    cancelFuel (f+1) h i v =
      (let c1 := clearTimeoutCtx c
       let h1 := h.set i c1
       let r := cancelBody (cancelFuel f) h1 i c1 v
       if r.2.2 then r
       else if c1.doneResolveDefined then
         match r.1.get i with
         | some c2 => (r.1.set i (resolveDone c2 v), r.2.1, false)
         | none => r
       else (r.1, r.2.1, true)) := by
  obtain ⟨k, p1, p2, p3, p4, p5, p6, p7, p8, p9, p10, p11, p12, p13⟩ := c
  cases hk
  rw [cancelFuel, hget]

theorem cancelBody_canceled (rec : Heap → Nat → String → Heap × List Event × Bool)
    (h : Heap) (i : Nat) (c : Ctx) (v : String) (hc : c.canceled = true) :
    cancelBody rec h i c v = (h, [], false) := by
  unfold cancelBody
  rw [hc]
  simp only [if_true]

theorem cancelBody_uncanceled (rec : Heap → Nat → String → Heap × List Event × Bool)
    (h : Heap) (i : Nat) (c : Ctx) (v : String) (hnc : c.canceled = false) :
    cancelBody rec h i c v =
      (let c1 : Ctx := { c with canceled := true, cause := some v }
       let p := abortCtrl c1 i v
       let h1 := h.set i p.1
       match c.children with
       | none => (h1, c.cancelCallback.map (fun cb => Event.callback i cb v) ++ p.2, false)
       | some j =>
         let r := rec h1 j v
         (r.1, c.cancelCallback.map (fun cb => Event.callback i cb v) ++ p.2 ++ r.2.1,
          r.2.2)) := by
  unfold cancelBody
  rw [hnc]
  simp only [Bool.false_eq_true, if_false]
  rw [abortCtrl_fst_children]

/-! ### Preservation of already-canceled contexts through a cancel cascade -/

/-- `cancelBody` preserves every already-canceled context, provided its
recursive cascade call does. -/
theorem cancelBody_corePreserved
    (rec : Heap → Nat → String → Heap × List Event × Bool)
    (hrec : ∀ (h : Heap) (k : Nat) (v : String), CorePreserved h (rec h k v).1)
    (h : Heap) (i : Nat) (c : Ctx) (v : String) (hi : h.get i = some c) :
    CorePreserved h (cancelBody rec h i c v).1 := by
  cases hc : c.canceled with
  | true =>
    rw [cancelBody_canceled rec h i c v hc]
    exact CorePreserved.refl h
  | false =>
    rw [cancelBody_uncanceled rec h i c v hc]
    have hstep : CorePreserved h
        (h.set i (abortCtrl { c with canceled := true, cause := some v } i v).1) :=
      CorePreserved.set_uncanceled hi hc _
    simp only
    split
    · exact hstep
    · exact hstep.trans (hrec _ _ _)

/-- A whole `cancel` cascade preserves every already-canceled context. -/
theorem cancelFuel_corePreserved (f : Nat) :
    ∀ (h : Heap) (i : Nat) (v : String), CorePreserved h (cancelFuel f h i v).1 := by
  induction f with
  | zero => intro h i v; exact CorePreserved.refl h
  | succ f ih =>
    intro h i v
    cases hget : h.get i with
    | none =>
      rw [cancelFuel_none f h i v hget]
      exact CorePreserved.refl h
    | some c =>
      cases hk : c.kind with
      | base =>
        rw [cancelFuel_base f h i v hget hk]
        exact CorePreserved.refl h
      | cancelable =>
        rw [cancelFuel_cancelable f h i v hget hk]
        exact cancelBody_corePreserved _ (fun h k v => ih h k v) h i c v hget
      | deadline =>
        rw [cancelFuel_deadline f h i v hget hk]
        have hi1 : (h.set i (clearTimeoutCtx c)).get i = some (clearTimeoutCtx c) :=
          Heap.get_set_self hget _
        have step1 : CorePreserved h (h.set i (clearTimeoutCtx c)) :=
          CorePreserved.set_inert hget (clearTimeoutCtx_canceled c)
            (clearTimeoutCtx_cause c) (clearTimeoutCtx_kind c)
            (clearTimeoutCtx_aborted c) (clearTimeoutCtx_abortReason c)
            (clearTimeoutCtx_cancelCallback c) (clearTimeoutCtx_children c)
        have step2 : CorePreserved h
            (cancelBody (cancelFuel f) (h.set i (clearTimeoutCtx c)) i
              (clearTimeoutCtx c) v).1 :=
          step1.trans (cancelBody_corePreserved _ (fun h k v => ih h k v) _ i _ v hi1)
        simp only
        split
        · exact step2
        · split
          · split
            · rename_i c2 hc2
              exact step2.trans (CorePreserved.set_inert hc2 (resolveDone_canceled c2 v)
                (resolveDone_cause c2 v) (resolveDone_kind c2 v)
                (resolveDone_aborted c2 v) (resolveDone_abortReason c2 v)
                (resolveDone_cancelCallback c2 v) (resolveDone_children c2 v))
            · exact step2
          · exact step2

/-! ### Callback events are only emitted by a context's own live→canceled
transition; a context that is already canceled never has a listener invoked
again by any later cascade. -/

def NoCb (j : Nat) (evs : List Event) : Prop :=
  ∀ cb w, Event.callback j cb w ∉ evs

theorem noCb_nil (j : Nat) : NoCb j [] :=
  fun _ _ hmem => absurd hmem (List.not_mem_nil _)

theorem noCb_append {j : Nat} {a b : List Event} (ha : NoCb j a) (hb : NoCb j b) :
    NoCb j (a ++ b) := by
  intro cb w hmem
  rcases List.mem_append.mp hmem with hx | hx
  · exact ha cb w hx
  · exact hb cb w hx

theorem noCb_map_ne {i j : Nat} (hij : i ≠ j) (l : List Nat) (v : String) :
    NoCb j (l.map fun cb => Event.callback i cb v) := by
  intro cb w hmem
  obtain ⟨x, _, hx⟩ := List.mem_map.mp hmem
  injection hx with h1 h2 h3
  exact hij h1

theorem noCb_abort (j i : Nat) (v : String) : NoCb j [Event.abort i v] := by
  intro cb w hmem
  have := List.mem_singleton.mp hmem
  exact Event.noConfusion this

theorem noCb_abortCtrl (j i : Nat) (c : Ctx) (v : String) :
    NoCb j (abortCtrl c i v).2 := by
  rcases abortCtrl_snd c i v with he | he
  · rw [he]; exact noCb_nil j
  · rw [he]; exact noCb_abort j i v

theorem cancelBody_noCb
    (rec : Heap → Nat → String → Heap × List Event × Bool) (j : Nat)
    (hrec : ∀ (h' : Heap) (k : Nat) (v' : String) (cj' : Ctx),
      h'.get j = some cj' → cj'.canceled = true → NoCb j (rec h' k v').2.1)
    (h : Heap) (i : Nat) (c : Ctx) (v : String) (cj : Ctx)
    (hi : h.get i = some c) (hj : h.get j = some cj) (hc : cj.canceled = true) :
    NoCb j (cancelBody rec h i c v).2.1 := by
  cases hcc : c.canceled with
  | true =>
    rw [cancelBody_canceled rec h i c v hcc]
    exact noCb_nil j
  | false =>
    have hij : i ≠ j := by
      intro he
      subst he
      rw [hi] at hj
      cases hj
      rw [hcc] at hc
      cases hc
    rw [cancelBody_uncanceled rec h i c v hcc]
    simp only
    have hj' : ((h.set i (abortCtrl { c with canceled := true, cause := some v } i v).1)).get j
        = some cj := (Heap.get_set_ne _ hij).trans hj
    split
    · exact noCb_append (noCb_map_ne hij _ v) (noCb_abortCtrl j i _ v)
    · exact noCb_append (noCb_append (noCb_map_ne hij _ v) (noCb_abortCtrl j i _ v))
        (hrec _ _ v cj hj' hc)

/-- A `cancel` cascade never invokes a listener of an already-canceled
context. -/
theorem cancelFuel_noCb (f : Nat) :
    ∀ (h : Heap) (i : Nat) (v : String) (j : Nat) (cj : Ctx),
      h.get j = some cj → cj.canceled = true → NoCb j (cancelFuel f h i v).2.1 := by
  induction f with
  | zero => intro h i v j cj _ _; exact noCb_nil j
  | succ f ih =>
    intro h i v j cj hj hc
    cases hget : h.get i with
    | none =>
      rw [cancelFuel_none f h i v hget]
      exact noCb_nil j
    | some c =>
      cases hk : c.kind with
      | base =>
        rw [cancelFuel_base f h i v hget hk]
        exact noCb_nil j
      | cancelable =>
        rw [cancelFuel_cancelable f h i v hget hk]
        exact cancelBody_noCb _ j (fun h' k v' cj' a b => ih h' k v' j cj' a b)
          h i c v cj hget hj hc
      | deadline =>
        rw [cancelFuel_deadline f h i v hget hk]
        have hi1 : (h.set i (clearTimeoutCtx c)).get i = some (clearTimeoutCtx c) :=
          Heap.get_set_self hget _
        have hj1 : ∃ cj1, (h.set i (clearTimeoutCtx c)).get j = some cj1 ∧
            cj1.canceled = true := by
          by_cases hij : i = j
          · subst hij
            rw [hget] at hj
            cases hj
            refine ⟨clearTimeoutCtx cj, Heap.get_set_self hget _, ?_⟩
            rw [clearTimeoutCtx_canceled]
            exact hc
          · exact ⟨cj, (Heap.get_set_ne _ hij).trans hj, hc⟩
        obtain ⟨cj1, hj1g, hj1c⟩ := hj1
        have hbody : NoCb j (cancelBody (cancelFuel f) (h.set i (clearTimeoutCtx c)) i
            (clearTimeoutCtx c) v).2.1 :=
          cancelBody_noCb _ j (fun h' k v' cj' a b => ih h' k v' j cj' a b)
            _ i _ v cj1 hi1 hj1g hj1c
        simp only
        split
        · exact hbody
        · split
          · split
            · exact hbody
            · exact hbody
          · exact hbody

theorem abortCtrl_of_not_aborted (c : Ctx) (i : Nat) (v : String)
    (ha : c.aborted = false) :
    abortCtrl c i v =
      ({ c with aborted := true, abortReason := some v }, [Event.abort i v]) := by
  unfold abortCtrl
  rw [ha]
  simp only [Bool.false_eq_true, if_false]

/-- Full unfolding of `cancel` on a live (not canceled, not yet aborted)
`CancelableContext`. -/
theorem cancelFuel_live_eq (f : Nat) (h : Heap) (i : Nat) (v : String) {c : Ctx}
    (hi : h.get i = some c) (hk : c.kind = CtxKind.cancelable)
    (hnc : c.canceled = false) (hna : c.aborted = false) :
    cancelFuel (f+1) h i v =
      (let m : Ctx := { c with
                        canceled := true, cause := some v,
                        aborted := true, abortReason := some v }
       let h1 := h.set i m
       match c.children with
       | none => (h1, c.cancelCallback.map (fun cb => Event.callback i cb v)
           ++ [Event.abort i v], false)
       | some j =>
         let r := cancelFuel f h1 j v
         (r.1, c.cancelCallback.map (fun cb => Event.callback i cb v)
           ++ [Event.abort i v] ++ r.2.1, r.2.2)) := by
  rw [cancelFuel_cancelable f h i v hi hk, cancelBody_uncanceled _ h i c v hnc]
  have ha1 : ({ c with canceled := true, cause := some v } : Ctx).aborted = false := hna
  dsimp only
  rw [abortCtrl_of_not_aborted _ i v ha1]

/-- **C1.** For every `CancelableContext` that is not yet canceled, `cancel(v)`
performs, in this order: it marks the scope canceled, stores `v` as the
cause, invokes every listener registered via `onCancel` in registration
order passing `v`, then aborts the abort signal with `v`, and finally, if a
propagation child is linked, calls `cancel(v)` on that child (`cancelFuel f`
on `children`); the listener events strictly precede the abort event, which
strictly precedes every event of the cascade into the child.  The final heap
still shows the scope canceled with cause `v` and the signal aborted with
`v`. -/
theorem claim_C1_cancel_order (f : Nat) (h : Heap) (i : Nat) (c : Ctx) (v : String)
    (hi : h.get i = some c) (hk : c.kind = CtxKind.cancelable)
    (hnc : c.canceled = false) (hna : c.aborted = false) :
    (cancelFuel (f+1) h i v =
      (let m : Ctx := { c with
                        canceled := true, cause := some v,
                        aborted := true, abortReason := some v }
       let h1 := h.set i m
       match c.children with
       | none => (h1, c.cancelCallback.map (fun cb => Event.callback i cb v)
           ++ [Event.abort i v], false)
       | some j =>
         let r := cancelFuel f h1 j v
         (r.1, c.cancelCallback.map (fun cb => Event.callback i cb v)
           ++ [Event.abort i v] ++ r.2.1, r.2.2)))
    ∧ ∃ c', (cancelFuel (f+1) h i v).1.get i = some c' ∧ c'.canceled = true ∧
        c'.cause = some v ∧ c'.aborted = true ∧ c'.abortReason = some v := by
  have heq := cancelFuel_live_eq f h i v hi hk hnc hna
  refine ⟨heq, ?_⟩
  rw [heq]
  cases hch : c.children with
  | none =>
    simp only [hch]
    exact ⟨_, Heap.get_set_self hi _, rfl, rfl, rfl, rfl⟩
  | some j =>
    simp only [hch]
    have hm := Heap.get_set_self hi ({ c with
      canceled := true, cause := some v,
      aborted := true, abortReason := some v, children := some j } : Ctx)
    obtain ⟨c', hg, hc', e2, _, e4, e5, _, _⟩ :=
      cancelFuel_corePreserved f _ j v i _ hm rfl
    exact ⟨c', hg, hc', e2, e4, e5⟩

/-- Concrete scenario for C1: a root, a cancelable scope with one registered
listener (id 7) and one propagation child. -/
def exC1Heap : Heap :=
  (newCancelable (onCancel (newCancelable (todo Heap.empty).1 0).1 1 7).1 1).1

def exC1Ctx : Ctx :=
  { kind := CtxKind.cancelable, parent := some 0, alive := true,
    canceled := false, cause := none, cancelCallback := [7],
    aborted := false, abortReason := none,
    childrenDefined := true, childrenWritable := true, children := some 2,
    timeoutId := TimerSlot.undef, doneResolveDefined := false, doneResolved := none }

theorem claim_C1_witness :
    ∃ c', (cancelFuel 3 exC1Heap 1 "x").1.get 1 = some c' ∧ c'.canceled = true ∧
      c'.cause = some "x" ∧ c'.aborted = true ∧ c'.abortReason = some "x" :=
  (claim_C1_cancel_order 2 exC1Heap 1 exC1Ctx "x" (by decide) (by decide)
    (by decide) (by decide)).2

theorem abortCtrl_fst_kind (c : Ctx) (i : Nat) (v : String) :
    (abortCtrl c i v).1.kind = c.kind := by
  unfold abortCtrl
  split <;> rfl

/-- After `cancel(v)` on a live `CancelableContext`, the context is canceled
with cause `v` (whatever the cascade into descendants did afterwards). -/
theorem cancelFuel_marks (f : Nat) (h : Heap) (i : Nat) (v : String) {c : Ctx}
    (hi : h.get i = some c) (hk : c.kind = CtxKind.cancelable)
    (hnc : c.canceled = false) :
    ∃ c', (cancelFuel (f+1) h i v).1.get i = some c' ∧ c'.canceled = true ∧
      c'.cause = some v ∧ c'.kind = CtxKind.cancelable := by
  rw [cancelFuel_cancelable f h i v hi hk, cancelBody_uncanceled _ h i c v hnc]
  simp only
  have hP1 : (abortCtrl { c with canceled := true, cause := some v } i v).1.canceled
      = true := abortCtrl_fst_canceled _ i v
  have hP2 : (abortCtrl { c with canceled := true, cause := some v } i v).1.cause
      = some v := abortCtrl_fst_cause _ i v
  have hP3 : (abortCtrl { c with canceled := true, cause := some v } i v).1.kind
      = CtxKind.cancelable := (abortCtrl_fst_kind _ i v).trans hk
  split
  · exact ⟨_, Heap.get_set_self hi _, hP1, hP2, hP3⟩
  · obtain ⟨c', hg, hc', e2, e3, _, _, _, _⟩ :=
      cancelFuel_corePreserved f _ _ v i _ (Heap.get_set_self hi _) hP1
    exact ⟨c', hg, hc', e2.trans hP2, e3.trans hP3⟩

/-- **C3.** For every `CancelableContext` not yet canceled, calling
`cancel(v1)` and then `cancel(v2)` with `v2 ≠ v1` leaves `isCancelled()`
true and `getCause()` equal to `v1`; the second call returns the heap
unchanged, invokes no listeners and emits no abort (empty event trace). -/
theorem claim_C3_first_cause_wins (f g : Nat) (h : Heap) (i : Nat) (c : Ctx)
    (v1 v2 : String) (hi : h.get i = some c) (hk : c.kind = CtxKind.cancelable)
    (hnc : c.canceled = false) (_hne : v1 ≠ v2) :
    isCancelled (cancelFuel (f+1) h i v1).1 i = true ∧
    getCause (cancelFuel (f+1) h i v1).1 i = some v1 ∧
    cancelFuel (g+1) (cancelFuel (f+1) h i v1).1 i v2 =
      ((cancelFuel (f+1) h i v1).1, [], false) := by
  obtain ⟨c', hg, hc', hcs, hkd⟩ := cancelFuel_marks f h i v1 hi hk hnc
  refine ⟨?_, ?_, ?_⟩
  · unfold isCancelled
    rw [hg]
    exact hc'
  · unfold getCause
    rw [hg]
    exact hcs
  · rw [cancelFuel_cancelable g _ i v2 hg hkd]
    exact cancelBody_canceled _ _ i c' v2 hc'

/-- Concrete scenario for C3: a cancelable scope over a root. -/
def exC3Heap : Heap := (newCancelable (todo Heap.empty).1 0).1

theorem claim_C3_witness :
    isCancelled (cancelFuel 2 exC3Heap 1 "a").1 1 = true ∧
    getCause (cancelFuel 2 exC3Heap 1 "a").1 1 = some "a" ∧
    cancelFuel 2 (cancelFuel 2 exC3Heap 1 "a").1 1 "b" =
      ((cancelFuel 2 exC3Heap 1 "a").1, [], false) :=
  claim_C3_first_cause_wins 1 1 exC3Heap 1 (cancelableInit 0) "a" "b"
    (by decide) (by decide) (by decide) (by decide)

theorem cbEvent_injective (i : Nat) (v : String) :
    Function.Injective (fun x => Event.callback i x v) := by
  intro a b hab
  injection hab with h1 h2 h3

theorem count_cb_map (i : Nat) (v : String) (l : List Nat) (cb : Nat) :
    (l.map fun x => Event.callback i x v).count (Event.callback i cb v) =
      l.count cb :=
  List.count_map_of_injective l _ (cbEvent_injective i v) cb

/-- A listener freshly appended to a live `CancelableContext` is invoked
exactly once by the next `cancel(v)`, with `v` and with no other cause. -/
theorem cancel_fires_once (f : Nat) (h2 : Heap) (i : Nat) (c2 : Ctx) (cb : Nat)
    (l : List Nat) (v : String)
    (hget2 : h2.get i = some c2) (hk2 : c2.kind = CtxKind.cancelable)
    (hnc2 : c2.canceled = false) (hcb : c2.cancelCallback = l ++ [cb])
    (hfresh : cb ∉ l) :
    (cancelFuel (f+1) h2 i v).2.1.count (Event.callback i cb v) = 1 ∧
    ∀ w, w ≠ v → Event.callback i cb w ∉ (cancelFuel (f+1) h2 i v).2.1 := by
  rw [cancelFuel_cancelable f h2 i v hget2 hk2, cancelBody_uncanceled _ h2 i c2 v hnc2]
  dsimp only
  have hset2 := Heap.get_set_self hget2
    (abortCtrl { c2 with canceled := true, cause := some v } i v).1
  have hrec0 : ∀ (j : Nat), NoCb i (cancelFuel f
      (h2.set i (abortCtrl { c2 with canceled := true, cause := some v } i v).1)
      j v).2.1 :=
    fun j => cancelFuel_noCb f _ j v i _ hset2 (abortCtrl_fst_canceled _ i v)
  have hmap : (c2.cancelCallback.map fun x => Event.callback i x v).count
      (Event.callback i cb v) = 1 := by
    rw [hcb, count_cb_map, List.count_append, List.count_eq_zero.mpr hfresh]
    simp
  have hmapw : ∀ w, w ≠ v → Event.callback i cb w ∉
      (c2.cancelCallback.map fun x => Event.callback i x v) := by
    intro w hw hmem
    rw [hcb] at hmem
    obtain ⟨x, _, hx⟩ := List.mem_map.mp hmem
    injection hx with e1 e2 e3
    exact hw e3.symm
  have habv : ∀ w, (abortCtrl { c2 with canceled := true, cause := some v } i v).2.count
      (Event.callback i cb w) = 0 :=
    fun w => List.count_eq_zero.mpr (noCb_abortCtrl i i _ v cb w)
  split
  · constructor
    · rw [List.count_append, hmap, habv v]
    · intro w hw hmem
      rcases List.mem_append.mp hmem with hx | hx
      · exact hmapw w hw hx
      · exact noCb_abortCtrl i i _ v cb w hx
  · rename_i j hj
    constructor
    · rw [List.count_append, List.count_append, hmap, habv v,
        List.count_eq_zero.mpr (hrec0 j cb v)]
    · intro w hw hmem
      rcases List.mem_append.mp hmem with hx | hx
      · rcases List.mem_append.mp hx with hy | hy
        · exact hmapw w hw hy
        · exact noCb_abortCtrl i i _ v cb w hy
      · exact hrec0 j cb w hx

/-- **C4.** For every `CancelableContext`, `onCancel(cb)` invokes `cb`
exactly once, synchronously before `onCancel` returns, with the existing
cause, if the scope is already canceled; otherwise it appends `cb` to the
listener sequence without invoking anything, and a later `cancel(v)` then
invokes `cb` exactly once, with `v` and with no other cause. -/
theorem claim_C4_onCancel_delivery (f : Nat) (h : Heap) (i : Nat) (c : Ctx) (cb : Nat)
    (hi : h.get i = some c) (hk : c.kind = CtxKind.cancelable) :
    (∀ v0, c.canceled = true → c.cause = some v0 →
      onCancel h i cb = (h, [Event.callback i cb v0])) ∧
    (c.canceled = false →
      onCancel h i cb =
        (h.set i { c with cancelCallback := c.cancelCallback ++ [cb] }, []) ∧
      (cb ∉ c.cancelCallback → ∀ v,
        (cancelFuel (f+1) (h.set i { c with cancelCallback := c.cancelCallback ++ [cb] })
            i v).2.1.count (Event.callback i cb v) = 1 ∧
        ∀ w, w ≠ v → Event.callback i cb w ∉
          (cancelFuel (f+1) (h.set i { c with cancelCallback := c.cancelCallback ++ [cb] })
            i v).2.1)) := by
  constructor
  · intro v0 hc hcs
    unfold onCancel
    rw [hi]
    dsimp only
    rw [hk, hc]
    simp [isCancelableKind, causeBang, hcs]
  · intro hnc
    constructor
    · unfold onCancel
      rw [hi]
      dsimp only
      rw [hk, hnc]
      simp [isCancelableKind]
    · intro hfresh v
      exact cancel_fires_once f _ i _ cb c.cancelCallback v
        (Heap.get_set_self hi _) hk hnc rfl hfresh

/-- Concrete scenario for C4: a cancelable scope over a root, listener id 5. -/
def exC4Heap : Heap := (newCancelable (todo Heap.empty).1 0).1

theorem claim_C4_witness :
    onCancel exC4Heap 1 5 =
      (exC4Heap.set 1 { cancelableInit 0 with cancelCallback := [5] }, []) ∧
    (cancelFuel 2 (exC4Heap.set 1 { cancelableInit 0 with
        cancelCallback := [] ++ [5] }) 1 "x").2.1.count (Event.callback 1 5 "x") = 1 :=
  by
  have hmain := claim_C4_onCancel_delivery 1 exC4Heap 1 (cancelableInit 0) 5
    (by decide) (by decide)
  have h2 := hmain.2 (by decide)
  exact ⟨h2.1, (h2.2 (by decide) "x").1⟩

theorem Heap.get_append_new (h : Heap) (x : Ctx) :
    (Heap.mk (h.ctxs ++ [x]) h.tasks).get h.ctxs.length = some x :=
  List.getElem?_concat_length h.ctxs x

theorem Heap.get_append_old {h : Heap} {j : Nat} (x : Ctx) (hj : j < h.ctxs.length) :
    (Heap.mk (h.ctxs ++ [x]) h.tasks).get j = h.get j :=
  List.getElem?_append_left hj

theorem lengthAppendOne (h : Heap) (x : Ctx) :
    (h.ctxs ++ [x]).length = h.ctxs.length + 1 := by
  simp

/-- **C5.** Constructing a `CancelableContext` against a cancelable parent
that is already canceled with cause `v` yields (before the constructor
returns, with no separate cancel call) a scope with `isCancelled() = true`
and `getCause() = v`, and the parent is left completely untouched — in
particular the new scope is not registered as its propagation child.  When
the parent is not canceled, the new scope is instead installed as the
parent's propagation child (its `children` slot). -/
theorem claim_C5_construction_inheritance (h : Heap) (p : Nat) (pc : Ctx)
    (hp : h.get p = some pc) (hk : pc.kind = CtxKind.cancelable) :
    (∀ v, pc.canceled = true → pc.cause = some v →
      (newCancelable h p).2.2 = some h.ctxs.length ∧
      isCancelled (newCancelable h p).1 h.ctxs.length = true ∧
      getCause (newCancelable h p).1 h.ctxs.length = some v ∧
      (newCancelable h p).1.get p = some pc) ∧
    (pc.canceled = false → pc.childrenDefined = true → pc.childrenWritable = true →
      (newCancelable h p).2.2 = some h.ctxs.length ∧
      (newCancelable h p).1.get p = some { pc with children := some h.ctxs.length } ∧
      isCancelled (newCancelable h p).1 h.ctxs.length = false) := by
  have hplt : p < h.ctxs.length := Heap.get_lt hp
  have hpi : p ≠ h.ctxs.length := Nat.ne_of_lt hplt
  have h0p : (Heap.mk (h.ctxs ++ [cancelableInit p]) h.tasks).get p = some pc :=
    (Heap.get_append_old _ hplt).trans hp
  have h0i : (Heap.mk (h.ctxs ++ [cancelableInit p]) h.tasks).get h.ctxs.length
      = some (cancelableInit p) := Heap.get_append_new h _
  constructor
  · intro v hc hcs
    have hfire := cancelFuel_live_eq h.ctxs.length
      (Heap.mk (h.ctxs ++ [cancelableInit p]) h.tasks) h.ctxs.length v h0i rfl rfl rfl
    have hbody2 : ctorCancelableBody (Heap.mk (h.ctxs ++ [cancelableInit p]) h.tasks)
        h.ctxs.length p =
        ((Heap.mk (h.ctxs ++ [cancelableInit p]) h.tasks).set h.ctxs.length
          { kind := CtxKind.cancelable, parent := some p, alive := true,
            canceled := true, cause := some v, cancelCallback := [],
            aborted := true, abortReason := some v,
            childrenDefined := true, childrenWritable := true, children := none,
            timeoutId := TimerSlot.undef, doneResolveDefined := false,
            doneResolved := none },
         [Event.abort h.ctxs.length v], false) := by
      unfold ctorCancelableBody
      rw [h0p]
      dsimp only
      rw [hk, hc]
      simp only [isCancelableKind, if_true]
      unfold causeBang
      rw [hcs]
      simp only [Option.getD_some]
      rw [lengthAppendOne h _, hfire]
      simp [cancelableInit]
    have heq : newCancelable h p =
        ((Heap.mk (h.ctxs ++ [cancelableInit p]) h.tasks).set h.ctxs.length
          { kind := CtxKind.cancelable, parent := some p, alive := true,
            canceled := true, cause := some v, cancelCallback := [],
            aborted := true, abortReason := some v,
            childrenDefined := true, childrenWritable := true, children := none,
            timeoutId := TimerSlot.undef, doneResolveDefined := false,
            doneResolved := none },
         [Event.abort h.ctxs.length v], some h.ctxs.length) := by
      unfold newCancelable
      dsimp only
      rw [hbody2]
      simp
    rw [heq]
    refine ⟨rfl, ?_, ?_, ?_⟩
    · unfold isCancelled
      rw [Heap.get_set_self h0i _]
    · unfold getCause
      rw [Heap.get_set_self h0i _]
    · rw [Heap.get_set_ne _ (Ne.symm hpi)]
      exact h0p
  · intro hnc hcd hcw
    have hbody2 : ctorCancelableBody (Heap.mk (h.ctxs ++ [cancelableInit p]) h.tasks)
        h.ctxs.length p =
        ((Heap.mk (h.ctxs ++ [cancelableInit p]) h.tasks).set p
          { pc with children := some h.ctxs.length }, [], false) := by
      unfold ctorCancelableBody defineChildrenProp
      rw [h0p]
      dsimp only
      rw [hk, hnc, hcd, hcw]
      simp [isCancelableKind]
    have heq : newCancelable h p =
        ((Heap.mk (h.ctxs ++ [cancelableInit p]) h.tasks).set p
          { pc with children := some h.ctxs.length }, [], some h.ctxs.length) := by
      unfold newCancelable
      dsimp only
      rw [hbody2]
      simp
    rw [heq]
    refine ⟨rfl, ?_, ?_⟩
    · exact Heap.get_set_self h0p _
    · unfold isCancelled
      rw [Heap.get_set_ne _ hpi, h0i]
      rfl

/-- Concrete scenario for C5: a cancelable scope canceled with `"x"` used as
parent. -/
def exC5Heap : Heap := (cancel (newCancelable (todo Heap.empty).1 0).1 1 "x").1

def exC5Parent : Ctx :=
  { cancelableInit 0 with
    canceled := true, cause := some "x", aborted := true, abortReason := some "x" }

theorem claim_C5_witness :
    (newCancelable exC5Heap 1).2.2 = some 2 ∧
    isCancelled (newCancelable exC5Heap 1).1 2 = true ∧
    getCause (newCancelable exC5Heap 1).1 2 = some "x" ∧
    (newCancelable exC5Heap 1).1.get 1 = some exC5Parent :=
  (claim_C5_construction_inheritance exC5Heap 1 exC5Parent (by decide) (by decide)).1
    "x" (by decide) (by decide)

/-- `new CancelableContext(parent)` against a live cancelable parent:
allocates the child and installs it as the parent's propagation child. -/
theorem newCancelable_live_eq (h : Heap) (p : Nat) (pc : Ctx)
    (hp : h.get p = some pc) (hk : isCancelableKind pc.kind = true)
    (hnc : pc.canceled = false) (hcd : pc.childrenDefined = true)
    (hcw : pc.childrenWritable = true) :
    newCancelable h p =
      ((Heap.mk (h.ctxs ++ [cancelableInit p]) h.tasks).set p
        { pc with children := some h.ctxs.length }, [], some h.ctxs.length) := by
  have hplt : p < h.ctxs.length := Heap.get_lt hp
  have h0p : (Heap.mk (h.ctxs ++ [cancelableInit p]) h.tasks).get p = some pc :=
    (Heap.get_append_old _ hplt).trans hp
  have hbody2 : ctorCancelableBody (Heap.mk (h.ctxs ++ [cancelableInit p]) h.tasks)
      h.ctxs.length p =
      ((Heap.mk (h.ctxs ++ [cancelableInit p]) h.tasks).set p
        { pc with children := some h.ctxs.length }, [], false) := by
    unfold ctorCancelableBody defineChildrenProp
    rw [h0p]
    dsimp only
    rw [hk, hnc, hcd, hcw]
    simp
  unfold newCancelable
  dsimp only
  rw [hbody2]
  simp

/-- A cancel cascade starting at a childless `CancelableContext` touches no
other context. -/
theorem cancelFuel_noChildren_frame (f : Nat) (h : Heap) (i : Nat) (v : String)
    {c : Ctx} (hi : h.get i = some c) (hk : c.kind = CtxKind.cancelable)
    (hch : c.children = none) (j : Nat) (hij : i ≠ j) :
    (cancelFuel (f+1) h i v).1.get j = h.get j := by
  rw [cancelFuel_cancelable f h i v hi hk]
  cases hc : c.canceled with
  | true => rw [cancelBody_canceled _ h i c v hc]
  | false =>
    rw [cancelBody_uncanceled _ h i c v hc]
    simp only [hch]
    exact Heap.get_set_ne _ hij

/-- Constructs `n` `CancelableContext` children against parent `p`, in
order, returning the new heap and the child ids in construction order. -/
def mkKids : Heap → Nat → Nat → Heap × List Nat
  | h, _, 0 => (h, [])
  | h, p, n+1 =>
    let r := newCancelable h p
    let r2 := mkKids r.1 p n
    (r2.1, (match r.2.2 with | some i => [i] | none => []) ++ r2.2)

theorem mkKids_spec (n : Nat) : ∀ (h : Heap) (p : Nat) (pc : Ctx),
    h.get p = some pc → pc.kind = CtxKind.cancelable → pc.canceled = false →
    pc.childrenDefined = true → pc.childrenWritable = true →
    (mkKids h p n).2 = (List.range n).map (fun m => h.ctxs.length + m) ∧
    (mkKids h p n).1.ctxs.length = h.ctxs.length + n ∧
    (∀ j, j < h.ctxs.length → j ≠ p → (mkKids h p n).1.get j = h.get j) ∧
    (∀ m, m < n → (mkKids h p n).1.get (h.ctxs.length + m) = some (cancelableInit p)) ∧
    (0 < n → (mkKids h p n).1.get p =
      some { pc with children := some (h.ctxs.length + (n-1)) }) ∧
    (n = 0 → (mkKids h p n).1.get p = some pc) := by
  induction n with
  | zero =>
    intro h p pc hp _ _ _ _
    refine ⟨rfl, rfl, fun j _ _ => rfl, fun m hm => absurd hm (Nat.not_lt_zero m),
      fun h0 => absurd h0 (Nat.lt_irrefl 0), fun _ => hp⟩
  | succ n ih =>
    intro h p pc hp hk hnc hcd hcw
    have hplt : p < h.ctxs.length := Heap.get_lt hp
    have hkk : isCancelableKind pc.kind = true := by
      rw [hk]
      rfl
    have hstep := newCancelable_live_eq h p pc hp hkk hnc hcd hcw
    have h0p : (Heap.mk (h.ctxs ++ [cancelableInit p]) h.tasks).get p = some pc :=
      (Heap.get_append_old _ hplt).trans hp
    have h1p : (newCancelable h p).1.get p =
        some { pc with children := some h.ctxs.length } := by
      rw [hstep]
      exact Heap.get_set_self h0p _
    have h1len : (newCancelable h p).1.ctxs.length = h.ctxs.length + 1 := by
      rw [hstep]
      simp [Heap.set]
    have h1get : ∀ j, j ≠ p → (newCancelable h p).1.get j =
        (Heap.mk (h.ctxs ++ [cancelableInit p]) h.tasks).get j := by
      intro j hj
      rw [hstep]
      exact Heap.get_set_ne _ fun he => hj he.symm
    obtain ⟨i1, i2, i3, i4, i5, i6⟩ := ih (newCancelable h p).1 p
      { pc with children := some h.ctxs.length } h1p hk hnc hcd hcw
    have hmk : mkKids h p (n+1) =
        ((mkKids (newCancelable h p).1 p n).1,
         (match (newCancelable h p).2.2 with | some i => [i] | none => [])
           ++ (mkKids (newCancelable h p).1 p n).2) := rfl
    have hid : (newCancelable h p).2.2 = some h.ctxs.length := by
      rw [hstep]
    refine ⟨?_, ?_, ?_, ?_, ?_, ?_⟩
    · rw [hmk]
      dsimp only
      rw [hid, i1, h1len, List.range_succ_eq_map]
      simp only [List.map_cons, List.map_map, List.singleton_append, Nat.add_zero]
      have hfun : ((fun m => h.ctxs.length + m) ∘ Nat.succ) =
          (fun m => h.ctxs.length + 1 + m) := by
        funext m
        simp only [Function.comp]
        omega
      rw [hfun]
    · rw [hmk]
      dsimp only
      rw [i2, h1len]
      omega
    · intro j hj hjp
      rw [hmk]
      dsimp only
      rw [i3 j (by omega) hjp, h1get j hjp]
      exact Heap.get_append_old _ hj
    · intro m hm
      rw [hmk]
      dsimp only
      cases m with
      | zero =>
        rw [Nat.add_zero, i3 h.ctxs.length (by omega) (Nat.ne_of_gt hplt),
          h1get h.ctxs.length (Nat.ne_of_gt hplt)]
        exact Heap.get_append_new h _
      | succ m' =>
        have : h.ctxs.length + (m'+1) = (newCancelable h p).1.ctxs.length + m' := by
          rw [h1len]
          omega
        rw [this]
        exact i4 m' (by omega)
    · intro _
      rw [hmk]
      dsimp only
      cases n with
      | zero =>
        rw [i6 rfl]
        simp
      | succ n' =>
        have harith : (newCancelable h p).1.ctxs.length + (n' + 1 - 1) =
            h.ctxs.length + (n' + 1 + 1 - 1) := by
          rw [h1len]
          omega
        rw [i5 (Nat.succ_pos n'), harith]
    · intro habs
      exact absurd habs (Nat.succ_ne_zero n)

/-- One step of a cascade out of a scope whose propagation child is `last`. -/
theorem cancel_into_single_child (f1 : Nat) (H : Heap) (p last : Nat) (pc1 : Ctx)
    (v : String) (hp : H.get p = some pc1) (hk : pc1.kind = CtxKind.cancelable)
    (hnc : pc1.canceled = false) (hch : pc1.children = some last) :
    (cancelFuel (f1+1) H p v).1 =
      (cancelFuel f1
        (H.set p (abortCtrl { pc1 with canceled := true, cause := some v } p v).1)
        last v).1 := by
  rw [cancelFuel_cancelable f1 H p v hp hk, cancelBody_uncanceled _ H p pc1 v hnc]
  dsimp only
  rw [hch]

/-- **C2.** For a live cancelable parent `p`, after `n ≥ 1` cancelable
children are constructed against `p` in order (ids `L, L+1, …, L+n-1` where
`L` is the prior heap size), `p.cancel(v)` cancels the most recently
attached child `L+(n-1)` with cause `v`, while every earlier-attached child
`L+m` (`m < n-1`) remains uncanceled: only the most recent child is linked
for cascade. -/
theorem claim_C2_last_child_cascade (h : Heap) (p : Nat) (pc : Ctx) (n : Nat)
    (v : String) (hp : h.get p = some pc) (hk : pc.kind = CtxKind.cancelable)
    (hnc : pc.canceled = false) (hcd : pc.childrenDefined = true)
    (hcw : pc.childrenWritable = true) (hn : 0 < n) :
    isCancelled (cancel (mkKids h p n).1 p v).1 (h.ctxs.length + (n-1)) = true ∧
    getCause (cancel (mkKids h p n).1 p v).1 (h.ctxs.length + (n-1)) = some v ∧
    ∀ m, m < n - 1 →
      isCancelled (cancel (mkKids h p n).1 p v).1 (h.ctxs.length + m) = false := by
  obtain ⟨i1, i2, i3, i4, i5, i6⟩ := mkKids_spec n h p pc hp hk hnc hcd hcw
  have hplt : p < h.ctxs.length := Heap.get_lt hp
  have hHp := i5 hn
  have hlast : (mkKids h p n).1.get (h.ctxs.length + (n-1)) = some (cancelableInit p) :=
    i4 (n-1) (by omega)
  have hpne : p ≠ h.ctxs.length + (n-1) := by omega
  have hfuel : (mkKids h p n).1.ctxs.length = (h.ctxs.length + n - 1) + 1 := by
    rw [i2]
    omega
  have hres : (cancel (mkKids h p n).1 p v).1 =
      (cancelFuel (h.ctxs.length + n - 1)
        ((mkKids h p n).1.set p
          (abortCtrl { { pc with children := some (h.ctxs.length + (n-1)) } with
            canceled := true, cause := some v } p v).1)
        (h.ctxs.length + (n-1)) v).1 := by
    unfold cancel
    rw [hfuel]
    exact cancel_into_single_child (h.ctxs.length + n - 1) (mkKids h p n).1 p
      (h.ctxs.length + (n-1)) { pc with children := some (h.ctxs.length + (n-1)) }
      v hHp hk hnc rfl
  obtain ⟨g2, hg2⟩ : ∃ g2, h.ctxs.length + n - 1 = g2 + 1 :=
    ⟨h.ctxs.length + n - 2, by omega⟩
  have hH1last : ((mkKids h p n).1.set p
      (abortCtrl { { pc with children := some (h.ctxs.length + (n-1)) } with
        canceled := true, cause := some v } p v).1).get (h.ctxs.length + (n-1))
      = some (cancelableInit p) :=
    (Heap.get_set_ne _ hpne).trans hlast
  obtain ⟨c', hgc, hcc, hcs, _⟩ := cancelFuel_marks g2 _ (h.ctxs.length + (n-1)) v
    hH1last rfl rfl
  refine ⟨?_, ?_, ?_⟩
  · unfold isCancelled
    rw [hres, hg2, hgc]
    exact hcc
  · unfold getCause
    rw [hres, hg2, hgc]
    exact hcs
  · intro m hm
    have hpm : p ≠ h.ctxs.length + m := by omega
    have hlastm : h.ctxs.length + (n-1) ≠ h.ctxs.length + m := by omega
    unfold isCancelled
    rw [hres, hg2,
      cancelFuel_noChildren_frame g2 _ (h.ctxs.length + (n-1)) v hH1last rfl rfl
        (h.ctxs.length + m) hlastm,
      Heap.get_set_ne _ hpm, i4 m (by omega)]
    rfl

/-- Concrete scenario for C2: root 0, cancelable parent 1, two children. -/
def exC2Heap : Heap := (newCancelable (todo Heap.empty).1 0).1

theorem claim_C2_witness :
    isCancelled (cancel (mkKids exC2Heap 1 2).1 1 "x").1 (2 + (2-1)) = true ∧
    getCause (cancel (mkKids exC2Heap 1 2).1 1 "x").1 (2 + (2-1)) = some "x" ∧
    ∀ m, m < 2 - 1 →
      isCancelled (cancel (mkKids exC2Heap 1 2).1 1 "x").1 (2 + m) = false :=
  claim_C2_last_child_cascade exC2Heap 1 (cancelableInit 0) 2 "x" (by decide)
    (by decide) (by decide) (by decide) (by decide) (by decide)

/-- Concrete scenario for C6: `p = new CancelableContext(Context.todo())`,
`p.cancel("x")`, then `new DeadlineContext(p, 1000)`. -/
def exC6Heap : Heap := (cancel (newCancelable (todo Heap.empty).1 0).1 1 "x").1

/-- **C6.** The claim says constructing a `DeadlineContext` whose parent is
an already-canceled cancelable scope completes normally and returns a scope
canceled with the parent's cause.  The code instead throws: `super(parent)`
runs the already-canceled branch, which calls the overridden `cancel`, and
that calls `this.doneResolve(cause)` before the `_done` promise wiring has
defined it — a `TypeError` (`this.doneResolve is not a function`).  The
construction result is `none` (threw); the dead object was marked canceled
with the parent's cause before the throw, but it is never returned. -/
theorem claim_C6_deadline_ctor_throws :
    (newDeadline exC6Heap 1 1000).2.2 = none ∧
    (newDeadline exC6Heap 1 1000).1.get 2 =
      some { deadlineInit 1 with
             alive := false, canceled := true, cause := some "x",
             aborted := true, abortReason := some "x",
             timeoutId := TimerSlot.cleared } := by
  constructor
  · decide
  · decide

/-- Concrete scenario for C9/C10: a `DeadlineContext` over a root, timer
still pending. -/
def exC9Heap : Heap := (newDeadline (todo Heap.empty).1 0 1000).1

def exC9Ctx : Ctx :=
  { deadlineInit 0 with timeoutId := TimerSlot.armed true, doneResolveDefined := true }

/-- **C9.** For every `DeadlineContext` never canceled by any other path
(live, unaborted, `done` unresolved) whose timer fires, `finish()` sets the
cause to exactly `"context deadline exceeded"`, aborts the signal with that
cause, and resolves the `done` promise with it, so `getCause()` and the
`done` value are both that string afterwards. -/
theorem claim_C9_deadline_expiry (h : Heap) (i : Nat) (c : Ctx)
    (hi : h.get i = some c) (hk : c.kind = CtxKind.deadline)
    (harm : c.timeoutId = TimerSlot.armed true)
    (_hnc : c.canceled = false) (hna : c.aborted = false)
    (hnr : c.doneResolved = none) (hdr : c.doneResolveDefined = true) :
    fireTimer h i = some (h.set i { c with
        timeoutId := TimerSlot.armed false,
        cause := some deadlineExceeded,
        aborted := true, abortReason := some deadlineExceeded,
        doneResolved := some deadlineExceeded },
      [Event.abort i deadlineExceeded], false) ∧
    getCause (h.set i { c with
        timeoutId := TimerSlot.armed false,
        cause := some deadlineExceeded,
        aborted := true, abortReason := some deadlineExceeded,
        doneResolved := some deadlineExceeded }) i = some deadlineExceeded ∧
    doneValue (h.set i { c with
        timeoutId := TimerSlot.armed false,
        cause := some deadlineExceeded,
        aborted := true, abortReason := some deadlineExceeded,
        doneResolved := some deadlineExceeded }) i = some deadlineExceeded := by
  obtain ⟨k, cp, al, cc, cs, cl, ab, ar, cd, cw, ch, ti, dd, dr⟩ := c
  cases hk
  cases harm
  cases hna
  cases hnr
  cases hdr
  refine ⟨?_, ?_, ?_⟩
  · unfold fireTimer
    rw [hi]
    rfl
  · unfold getCause
    rw [Heap.get_set_self hi _]
  · unfold doneValue
    rw [Heap.get_set_self hi _]

theorem claim_C9_witness :
    getCause (exC9Heap.set 1 { exC9Ctx with
        timeoutId := TimerSlot.armed false,
        cause := some deadlineExceeded,
        aborted := true, abortReason := some deadlineExceeded,
        doneResolved := some deadlineExceeded }) 1 = some deadlineExceeded ∧
    doneValue (exC9Heap.set 1 { exC9Ctx with
        timeoutId := TimerSlot.armed false,
        cause := some deadlineExceeded,
        aborted := true, abortReason := some deadlineExceeded,
        doneResolved := some deadlineExceeded }) 1 = some deadlineExceeded :=
  (claim_C9_deadline_expiry exC9Heap 1 exC9Ctx (by decide) (by decide) (by decide)
    (by decide) (by decide) (by decide) (by decide)).2

/-- **C10.** When the timer of a not-yet-canceled `DeadlineContext` fires,
the natural-expiry path changes only this context's cause, abort signal,
timer slot and `done` future: the canceled flag stays `false` (so
`isCancelled()` still returns `false`), no `onCancel` listener is invoked
(the trace holds no callback events), and every other context — in
particular the linked propagation child — is untouched. -/
theorem claim_C10_expiry_frame (h : Heap) (i : Nat) (c : Ctx)
    (r : Heap × List Event × Bool)
    (hi : h.get i = some c) (hnc : c.canceled = false)
    (hr : fireTimer h i = some r) :
    isCancelled r.1 i = false ∧
    (∀ e ∈ r.2.1, ∀ j cb w, e ≠ Event.callback j cb w) ∧
    (∀ j, j ≠ i → r.1.get j = h.get j) ∧
    r.1.tasks = h.tasks := by
  unfold fireTimer at hr
  rw [hi] at hr
  dsimp only at hr
  split at hr
  · rename_i hcond
    have habs : ∀ (x : Ctx) (evs : List Event),
        (abortCtrl x i (causeBang x)).2 = evs →
        ∀ e ∈ evs, ∀ j cb w, e ≠ Event.callback j cb w := by
      intro x evs hevs e he j cb w hee
      subst hee
      rw [← hevs] at he
      exact noCb_abortCtrl j i x (causeBang x) cb w he
    split at hr
    · cases hr
      refine ⟨?_, ?_, ?_, ?_⟩
      · unfold isCancelled
        rw [Heap.get_set_self hi _]
        dsimp only
        rw [resolveDone_canceled, abortCtrl_fst_canceled]
        exact hnc
      · exact habs _ _ rfl
      · intro j hj
        exact Heap.get_set_ne _ fun he => hj he.symm
      · rfl
    · cases hr
      refine ⟨?_, ?_, ?_, ?_⟩
      · unfold isCancelled
        rw [Heap.get_set_self hi _]
        dsimp only
        rw [abortCtrl_fst_canceled]
        exact hnc
      · exact habs _ _ rfl
      · intro j hj
        exact Heap.get_set_ne _ fun he => hj he.symm
      · rfl
  · cases hr

theorem claim_C10_witness :
    isCancelled ((exC9Heap.set 1 { exC9Ctx with
        timeoutId := TimerSlot.armed false,
        cause := some deadlineExceeded,
        aborted := true, abortReason := some deadlineExceeded,
        doneResolved := some deadlineExceeded },
      [Event.abort 1 deadlineExceeded], (false : Bool)) :
        Heap × List Event × Bool).1 1 = false :=
  (claim_C10_expiry_frame exC9Heap 1 exC9Ctx _ (by decide) (by decide) (by decide)).1

/-- The heap after the timer of the deadline context in `exC9Heap` fires. -/
def exC8Fired : Heap :=
  match fireTimer exC9Heap 1 with
  | some r => r.1
  | none => exC9Heap

/-- **C8 (counterexample).** After the timer fires, the cause is
`"context deadline exceeded"`, but a later `cancel("boom")` — far from being
a no-op — overwrites `getCause()` and flips `isCancelled()` from `false` to
`true` (only the resolved `done` value is stable), because natural expiry
bypasses `cancel` and never sets the `canceled` flag that guards it. -/
theorem claim_C8_counterexample :
    getCause exC8Fired 1 = some deadlineExceeded ∧
    isCancelled exC8Fired 1 = false ∧
    getCause (cancel exC8Fired 1 "boom").1 1 = some "boom" ∧
    isCancelled (cancel exC8Fired 1 "boom").1 1 = true ∧
    doneValue (cancel exC8Fired 1 "boom").1 1 = some deadlineExceeded ∧
    ¬ getCause (cancel exC8Fired 1 "boom").1 1 = getCause exC8Fired 1 := by
  decide

/-- **C8 (amended).** Once a `DeadlineContext` has been canceled through the
`cancel` path — which sets the `canceled` flag, clears the timer slot and
resolves `done` — every later `cancel` call is a complete no-op (identical
heap, no events, no throw), and no later timer firing is possible
(`fireTimer` is disabled).  The original claim's further contention — that a
cause established by the *timer-expiry* path is equally stable — is false;
see the counterexample: expiry does not set `canceled`, so a later `cancel`
overwrites the cause, though the `done` value never changes. -/
theorem claim_C8_amended_idempotent (g : Nat) (h : Heap) (i : Nat) (c : Ctx)
    (v2 : String) (hi : h.get i = some c) (hk : c.kind = CtxKind.deadline)
    (hc : c.canceled = true) (hto : c.timeoutId = TimerSlot.cleared)
    (hdd : c.doneResolveDefined = true) (hdr : c.doneResolved.isSome = true) :
    cancelFuel (g+1) h i v2 = (h, [], false) ∧ fireTimer h i = none := by
  have hclear : clearTimeoutCtx c = c := by
    unfold clearTimeoutCtx
    rw [hto]
    simp
  have hres : resolveDone c v2 = c := by
    unfold resolveDone
    cases hd : c.doneResolved with
    | none =>
      rw [hd] at hdr
      cases hdr
    | some w => rfl
  constructor
  · rw [cancelFuel_deadline g h i v2 hi hk]
    dsimp only
    rw [hclear, Heap.set_self hi, cancelBody_canceled _ h i c v2 hc]
    dsimp only
    rw [hdd]
    simp only [if_true, Bool.false_eq_true, if_false]
    rw [hi]
    dsimp only
    rw [hres, Heap.set_self hi]
  · unfold fireTimer
    rw [hi]
    dsimp only
    have hno : ¬(c.kind = CtxKind.deadline ∧ c.timeoutId = TimerSlot.armed true) := by
      rintro ⟨_, h2⟩
      rw [hto] at h2
      cases h2
    rw [if_neg hno]

/-- Concrete scenario for C8 amended: the deadline context canceled through
`cancel("c1")`. -/
def exC8Canceled : Heap := (cancel exC9Heap 1 "c1").1

def exC8CanceledCtx : Ctx :=
  { exC9Ctx with
    canceled := true, cause := some "c1", aborted := true, abortReason := some "c1",
    timeoutId := TimerSlot.cleared, doneResolved := some "c1" }

theorem claim_C8_witness :
    cancelFuel 2 exC8Canceled 1 "later" = (exC8Canceled, [], false) ∧
    fireTimer exC8Canceled 1 = none :=
  claim_C8_amended_idempotent 1 exC8Canceled 1 exC8CanceledCtx "later" (by decide)
    (by decide) (by decide) (by decide) (by decide) (by decide)

/-- **C7 (counterexample).** After natural timer expiry the cause is
non-null while `isCancelled()` is still `false`, so the claimed equivalence
"`getCause()` non-null iff `isCancelled()`" fails on the reachable state
produced by the timer-expiry path (the repository's own tests assert exactly
this state). -/
theorem claim_C7_counterexample :
    getCause exC8Fired 1 ≠ none ∧ isCancelled exC8Fired 1 = false := by
  decide

/-! ### The cause/canceled invariant over all heaps reachable without the
timer-expiry path -/

/-- The invariant of one context: `cause` is non-null exactly when
`canceled` is set. -/
def InvCtx (c : Ctx) : Prop := c.cause.isSome = c.canceled

/-- The invariant over a whole heap. -/
def HeapInv (h : Heap) : Prop := ∀ i c, h.get i = some c → InvCtx c

theorem inv_set {h : Heap} {i : Nat} {c : Ctx} (hinv : HeapInv h) (hc : InvCtx c) :
    HeapInv (h.set i c) := by
  intro j cj hj
  by_cases hij : i = j
  · subst hij
    by_cases hlt : i < h.ctxs.length
    · rw [show (h.set i c).get i = some c from List.getElem?_set_self hlt] at hj
      cases hj
      exact hc
    · have hset : h.ctxs.set i c = h.ctxs :=
        List.set_eq_of_length_le (Nat.le_of_not_lt hlt)
      have : (h.set i c).get i = h.get i := by
        unfold Heap.set Heap.get
        rw [hset]
      rw [this] at hj
      exact hinv i cj hj
  · rw [Heap.get_set_ne _ hij] at hj
    exact hinv j cj hj

theorem inv_tasks {l : List Ctx} {t t' : List (Nat × Nat)}
    (hinv : HeapInv (Heap.mk l t)) : HeapInv (Heap.mk l t') :=
  fun i c hi => hinv i c hi

theorem get_append_cases {h : Heap} {x : Ctx} {t : List (Nat × Nat)} {j : Nat}
    {cj : Ctx} (hj : (Heap.mk (h.ctxs ++ [x]) t).get j = some cj) :
    h.get j = some cj ∨ cj = x := by
  rcases Nat.lt_trichotomy j h.ctxs.length with hlt | heq | hgt
  · left
    have : (Heap.mk (h.ctxs ++ [x]) t).get j = h.get j :=
      List.getElem?_append_left hlt
    rw [this] at hj
    exact hj
  · right
    subst heq
    have : (Heap.mk (h.ctxs ++ [x]) t).get h.ctxs.length = some x :=
      List.getElem?_concat_length h.ctxs x
    rw [this] at hj
    cases hj
    rfl
  · exfalso
    have hlen : (h.ctxs ++ [x]).length ≤ j := by
      simp only [List.length_append, List.length_singleton]
      omega
    have : (Heap.mk (h.ctxs ++ [x]) t).get j = none :=
      List.getElem?_eq_none_iff.mpr hlen
    rw [this] at hj
    cases hj

theorem inv_append {h : Heap} {x : Ctx} {t : List (Nat × Nat)}
    (hinv : HeapInv h) (hx : InvCtx x) : HeapInv (Heap.mk (h.ctxs ++ [x]) t) := by
  intro j cj hj
  rcases get_append_cases hj with hc | hc
  · exact hinv j cj hc
  · rw [hc]
    exact hx

theorem invCtx_baseInit (p : Option Nat) : InvCtx (baseInit p) := rfl

theorem invCtx_cancelableInit (p : Nat) : InvCtx (cancelableInit p) := rfl

theorem invCtx_deadlineInit (p : Nat) : InvCtx (deadlineInit p) := rfl

theorem invCtx_clearTimeoutCtx {c : Ctx} (hc : InvCtx c) :
    InvCtx (clearTimeoutCtx c) := by
  unfold InvCtx
  rw [clearTimeoutCtx_cause, clearTimeoutCtx_canceled]
  exact hc

theorem invCtx_resolveDone {c : Ctx} (hc : InvCtx c) (v : String) :
    InvCtx (resolveDone c v) := by
  unfold InvCtx
  rw [resolveDone_cause, resolveDone_canceled]
  exact hc

theorem invCtx_abortCtrl {c : Ctx} (hc : InvCtx c) (i : Nat) (v : String) :
    InvCtx (abortCtrl c i v).1 := by
  unfold InvCtx
  rw [abortCtrl_fst_cause, abortCtrl_fst_canceled]
  exact hc

theorem invCtx_defineChildren {c c' : Ctx} (hc : InvCtx c)
    (hdef : defineChildrenProp c v = some c') : InvCtx c' := by
  unfold defineChildrenProp at hdef
  split at hdef
  · cases hdef
    exact hc
  · split at hdef
    · cases hdef
      exact hc
    · split at hdef
      · cases hdef
        exact hc
      · cases hdef

theorem inv_markDead {h : Heap} (hinv : HeapInv h) (i : Nat) : HeapInv (markDead h i) := by
  unfold markDead
  split
  · rename_i c hc
    exact inv_set hinv (hinv i c hc)
  · exact hinv

/-- `cancelBody` preserves the invariant, provided its cascade call does. -/
theorem cancelBody_inv (rec : Heap → Nat → String → Heap × List Event × Bool)
    (hrec : ∀ (h : Heap) (k : Nat) (v : String), HeapInv h → HeapInv (rec h k v).1)
    (h : Heap) (i : Nat) (c : Ctx) (v : String)
    (hinv : HeapInv h) : HeapInv (cancelBody rec h i c v).1 := by
  cases hc : c.canceled with
  | true =>
    rw [cancelBody_canceled rec h i c v hc]
    exact hinv
  | false =>
    rw [cancelBody_uncanceled rec h i c v hc]
    have hP0 : InvCtx ({ c with canceled := true, cause := some v } : Ctx) := by
      unfold InvCtx
      rfl
    have hP : InvCtx (abortCtrl { c with canceled := true, cause := some v } i v).1 :=
      invCtx_abortCtrl hP0 i v
    dsimp only
    split
    · exact inv_set hinv hP
    · exact hrec _ _ v (inv_set hinv hP)

/-- A `cancel` cascade preserves the invariant. -/
theorem cancelFuel_inv (f : Nat) :
    ∀ (h : Heap) (i : Nat) (v : String), HeapInv h → HeapInv (cancelFuel f h i v).1 := by
  induction f with
  | zero => intro h i v hinv; exact hinv
  | succ f ih =>
    intro h i v hinv
    cases hget : h.get i with
    | none =>
      rw [cancelFuel_none f h i v hget]
      exact hinv
    | some c =>
      cases hk : c.kind with
      | base =>
        rw [cancelFuel_base f h i v hget hk]
        exact hinv
      | cancelable =>
        rw [cancelFuel_cancelable f h i v hget hk]
        exact cancelBody_inv _ (fun h k v a => ih h k v a) h i c v hinv
      | deadline =>
        rw [cancelFuel_deadline f h i v hget hk]
        have hinv1 : HeapInv (h.set i (clearTimeoutCtx c)) :=
          inv_set hinv (invCtx_clearTimeoutCtx (hinv i c hget))
        have hi1 : (h.set i (clearTimeoutCtx c)).get i = some (clearTimeoutCtx c) :=
          Heap.get_set_self hget _
        have hinv2 : HeapInv (cancelBody (cancelFuel f) (h.set i (clearTimeoutCtx c)) i
            (clearTimeoutCtx c) v).1 :=
          cancelBody_inv _ (fun h k v a => ih h k v a) _ i _ v hinv1
        dsimp only
        split
        · exact hinv2
        · split
          · split
            · rename_i c2 hc2
              exact inv_set hinv2 (invCtx_resolveDone (hinv2 i c2 hc2) v)
            · exact hinv2
          · exact hinv2

theorem newContext_inv {h : Heap} (hinv : HeapInv h) (p : Option Nat) :
    HeapInv (newContext h p).1 :=
  inv_append hinv (invCtx_baseInit p)

theorem ctorCancelableBody_inv {h0 : Heap} (hinv : HeapInv h0) (i p : Nat) :
    HeapInv (ctorCancelableBody h0 i p).1 := by
  unfold ctorCancelableBody
  split
  · exact hinv
  · rename_i pc hp
    split
    · split
      · exact cancelFuel_inv _ h0 i _ hinv
      · split
        · rename_i pc1 hdef
          exact inv_set hinv (invCtx_defineChildren (hinv p pc hp) hdef)
        · exact hinv
    · exact hinv

theorem newCancelable_inv {h : Heap} (hinv : HeapInv h) (p : Nat) :
    HeapInv (newCancelable h p).1 := by
  unfold newCancelable
  have h0inv : HeapInv (Heap.mk (h.ctxs ++ [cancelableInit p]) h.tasks) :=
    inv_append hinv (invCtx_cancelableInit p)
  have hb := ctorCancelableBody_inv h0inv h.ctxs.length p
  dsimp only
  split
  · exact inv_markDead hb _
  · exact hb

theorem armTimer_inv {h : Heap} (hinv : HeapInv h) (i : Nat) :
    HeapInv (armTimer h i) := by
  unfold armTimer
  split
  · rename_i c hc
    split
    · exact inv_set hinv (hinv i c hc)
    · exact hinv
  · exact hinv

theorem wireDone_inv {h : Heap} (hinv : HeapInv h) (i : Nat) :
    HeapInv (wireDone h i) := by
  unfold wireDone
  split
  · rename_i c hc
    exact inv_set hinv (hinv i c hc)
  · exact hinv

theorem registerChild_inv {h : Heap} (hinv : HeapInv h) (i p : Nat)
    (evs : List Event) : HeapInv (registerChild h i p evs).1 := by
  unfold registerChild
  split
  · rename_i pc hp
    split
    · rename_i pc1 hdef
      exact inv_set hinv (invCtx_defineChildren (hinv p pc hp) hdef)
    · exact inv_markDead hinv _
  · exact hinv

theorem newDeadline_inv {h : Heap} (hinv : HeapInv h) (p ms : Nat) :
    HeapInv (newDeadline h p ms).1 := by
  unfold newDeadline
  have h0inv : HeapInv (Heap.mk (h.ctxs ++ [deadlineInit p]) h.tasks) :=
    inv_append hinv (invCtx_deadlineInit p)
  have hb := ctorCancelableBody_inv h0inv h.ctxs.length p
  dsimp only
  split
  · exact inv_markDead hb _
  · have h2 := wireDone_inv (armTimer_inv hb h.ctxs.length) h.ctxs.length
    split
    · rename_i pc hp
      split
      · split
        · split
          · exact inv_markDead (cancelFuel_inv _ _ _ _ h2) _
          · exact cancelFuel_inv _ _ _ _ h2
        · split
          · exact registerChild_inv (inv_tasks h2) h.ctxs.length p _
          · exact registerChild_inv h2 h.ctxs.length p _
      · exact registerChild_inv h2 h.ctxs.length p _
    · exact h2

theorem onCancel_inv {h : Heap} (hinv : HeapInv h) (i cb : Nat) :
    HeapInv (onCancel h i cb).1 := by
  unfold onCancel
  split
  · exact hinv
  · rename_i c hc
    split
    · split
      · exact hinv
      · exact inv_set hinv (hinv i c hc)
    · exact hinv

theorem runTask_inv {h : Heap} {t : Nat} {r : Heap × List Event × Bool}
    (hr : runTask h t = some r) (hinv : HeapInv h) : HeapInv r.1 := by
  unfold runTask at hr
  split at hr
  · rename_i child par hts
    split at hr
    · rename_i pc hp
      split at hr
      · cases hr
        exact cancelFuel_inv _ _ child (causeBang pc) (fun i c hi => hinv i c hi)
      · cases hr
    · cases hr
  · cases hr

/-- The public operations of the engine, excluding the timer-expiry step:
root/scope construction, `cancel` (which includes the cascade into the
propagation child), `onCancel`, and resumption of a pending parent-deadline
propagation task. -/
inductive StepNE : Heap → Heap → Prop
  | newBase (h : Heap) (p : Option Nat) : StepNE h (newContext h p).1
  | newCanc (h : Heap) (p : Nat) : StepNE h (newCancelable h p).1
  | newDl (h : Heap) (p ms : Nat) : StepNE h (newDeadline h p ms).1
  | cancelOp (h : Heap) (i : Nat) (v : String) : StepNE h (cancel h i v).1
  | onCancelOp (h : Heap) (i cb : Nat) : StepNE h (onCancel h i cb).1
  | task (h : Heap) (t : Nat) (r : Heap × List Event × Bool)
      (hr : runTask h t = some r) : StepNE h r.1

/-- Heaps reachable from the empty heap by those operations. -/
inductive ReachableNE : Heap → Prop
  | init : ReachableNE Heap.empty
  | step {h h' : Heap} : ReachableNE h → StepNE h h' → ReachableNE h'

theorem reachableNE_inv {h : Heap} (hr : ReachableNE h) : HeapInv h := by
  induction hr with
  | init =>
    intro i c hi
    have : Heap.empty.get i = none := List.getElem?_eq_none_iff.mpr (by
      show ([] : List Ctx).length ≤ i
      simp)
    rw [this] at hi
    cases hi
  | step hprev hs ih =>
    cases hs with
    | newBase p => exact newContext_inv ih p
    | newCanc p => exact newCancelable_inv ih p
    | newDl p ms => exact newDeadline_inv ih p ms
    | cancelOp i v => exact cancelFuel_inv _ _ i v ih
    | onCancelOp i cb => exact onCancel_inv ih i cb
    | task t r hrt => exact runTask_inv hrt ih

/-- **C7 (amended).** For every context in every heap reachable by any
sequence of public operations *other than* natural timer expiry
(construction of any scope kind, `cancel` with its cascade, `onCancel`, and
parent-deadline propagation), `getCause()` is non-null if and only if
`isCancelled()` is true.  The original claim, which also admitted the
timer-expiry step, is refuted by the counterexample: `finish()` sets the
cause without setting the canceled flag. -/
theorem claim_C7_amended_invariant (h : Heap) (hr : ReachableNE h) (i : Nat)
    (c : Ctx) (hi : h.get i = some c) : c.cause ≠ none ↔ c.canceled = true := by
  have hinv : c.cause.isSome = c.canceled := reachableNE_inv hr i c hi
  rw [← Option.isSome_iff_ne_none, hinv]

/-- Concrete reachable heap for the C7 witness: one root context. -/
def exC7Heap : Heap := (newContext Heap.empty none).1

theorem claim_C7_witness :
    (baseInit none).cause ≠ none ↔ (baseInit none).canceled = true :=
  claim_C7_amended_invariant exC7Heap
    (ReachableNE.step ReachableNE.init (StepNE.newBase Heap.empty none)) 0
    (baseInit none) (by decide)
